import Mathlib

/-!
# Command front end of the LED display controller (`firmware/src/commands.c`)

A shallow embedding of `commands.c`: the static command table, the address
filtering dispatcher `command_parser`, the address cell, the receive callback
and the poll loop.

Conventions of the embedding.

* A `uint8_t` or `uint32_t` value is a natural number.  The file does no
  arithmetic on bytes (they are only copied and compared), so no reduction
  modulo a power of two is involved anywhere.
* A byte pointer is the list of the bytes readable from it onward; the null
  pointer is `none`.  `*p++` reads the head of the list and continues with its
  tail; reading from the empty list is a read outside the buffer and makes the
  embedded function return `none`.
* The command handlers are declared in `commands.c` but defined elsewhere.  A
  handler is therefore a name, and running `command_parser` yields the list of
  handler invocations it performs, in program order, each with the pointer and
  the length it passes.
* `command_parser_trace` is the same function with the memory threaded
  through; what a handler does to the memory is an argument.
  `command_parser_trace_calls` ties it to `command_parser_with`.
-/

namespace Commands

/-! ## Command codes (`#define CMD_*`) -/

def CMD_INVALID : Nat := 0
def CMD_HELLO : Nat := 0xfe
def CMD_SYS : Nat := 0xff
def CMD_SETBLINK : Nat := 1
def CMD_SETBLINK_SPEED : Nat := 2
def CMD_SETCONTRASTA : Nat := 3
def CMD_SETCONTRASTB : Nat := 4
def CMD_SETCONTRASTC : Nat := 10
def CMD_PRINT : Nat := 5
def CMD_SETSCROLL_SPEED : Nat := 6
def CMD_SAVE_SETTING : Nat := 7
def CMD_ADD_FONT : Nat := 8
def CMD_SET_HLIGHT : Nat := 9
def CMD_SET_ADDR : Nat := 0xa0

/-! ## Handlers and the command table -/

/-- The eleven handler functions declared at the top of `commands.c`. -/
inductive Handler where
  | command_set_blink
  | command_set_blink_speed
  | command_set_scroll_speed
  | command_print
  | command_set_contrastA
  | command_set_contrastB
  | command_set_contrastC
  | command_save_settings
  | command_add_font
  | command_set_hlight
  | command_set_addr
  deriving DecidableEq, Repr

/-- One invocation `phandler(ppara, len)`: which handler, the bytes readable
from the pointer it is given, and the length argument. -/
structure Call where
  phandler : Handler
  ppara : List Nat
  len : Nat
  deriving DecidableEq, Repr

/-- An entry of the command table.  The type is declared in `commands.h`; the
fields are the three the initialiser of `cmd_table` sets.  A null `phandler`
is `none`. -/
structure cmd_table_def where
  command : Nat
  phandler : Option Handler
  pdesc : String
  deriving DecidableEq, Repr

/-- The table `cmd_table[]`, entry by entry in source order. -/
def cmd_table : List cmd_table_def :=
  [ { command := CMD_HELLO,           phandler := none,                          pdesc := "command hello" },
    { command := CMD_SYS,             phandler := none,                          pdesc := "reserved command" },
    { command := CMD_SETBLINK,        phandler := some .command_set_blink,        pdesc := "" },
    { command := CMD_SETBLINK_SPEED,  phandler := some .command_set_blink_speed,  pdesc := "" },
    { command := CMD_SETSCROLL_SPEED, phandler := some .command_set_scroll_speed, pdesc := "" },
    { command := CMD_SETCONTRASTA,    phandler := some .command_set_contrastA,    pdesc := "" },
    { command := CMD_SETCONTRASTB,    phandler := some .command_set_contrastB,    pdesc := "" },
    { command := CMD_SETCONTRASTC,    phandler := some .command_set_contrastC,    pdesc := "" },
    { command := CMD_PRINT,           phandler := some .command_print,            pdesc := "" },
    { command := CMD_SAVE_SETTING,    phandler := some .command_save_settings,    pdesc := "" },
    { command := CMD_ADD_FONT,        phandler := some .command_add_font,         pdesc := "" },
    { command := CMD_SET_HLIGHT,      phandler := some .command_set_hlight,       pdesc := "" },
    { command := CMD_SET_ADDR,        phandler := some .command_set_addr,         pdesc := "" } ]

/-! ## The byte queue -/

/-- Modelled from the spec: the byte queue of `fifo.h` / `fifo.c`, which are
not among the sources.  The spec describes it as an ordered, bounded sequence
of pending received bytes whose capacity is fixed at initialisation.  `data`
holds the pending bytes, oldest first. -/
structure fifo_def where
  data : List Nat
  capacity : Nat
  deriving DecidableEq, Repr

/-- Modelled from the spec: `fifo_init(&fifo, buff, size)` of the absent
`fifo.c`; an empty queue of the given capacity. -/
def fifo_init (size : Nat) : fifo_def :=
  { data := [], capacity := size }

/-- Modelled from the spec: `fifo_write1B` of the absent `fifo.c`, the spec's
`push(byte) -> bool`: `true` and the byte appended when there is room, `false`
and the queue untouched when it is full. -/
def fifo_write1B (fifo : fifo_def) (ch : Nat) : fifo_def × Bool :=
  if fifo.data.length < fifo.capacity then
    ({ fifo with data := fifo.data ++ [ch] }, true)
  else
    (fifo, false)

/-- Modelled from the spec: `fifo_read1B` of the absent `fifo.c`, the spec's
`pop() -> optional<byte>`: the oldest pending byte and the queue without it,
or `none` when the queue is empty.  `some` stands for the return value
`fifo_err_ok`. -/
def fifo_read1B (fifo : fifo_def) : Option (Nat × fifo_def) :=
  match fifo.data with
  | [] => none
  | ch :: rest => some (ch, { fifo with data := rest })

/-! ## The static state of `commands.c` -/

/-- The three file-scope statics `address`, `sframe` and `uart_fifo`.  The
decoder type `sframe_def` comes from the absent `serial_frame.h`, so the
decoder state is a type parameter `D`. -/
structure State (D : Type) where
  address : Nat
  sframe : D
  uart_fifo : fifo_def

/-! ## `command_parser` -/

/-- The `for` loop of `command_parser`, run over the table entries that are
left, `i` being the loop counter on entry.  Returns the value of `i` when the
loop is left (by `break`, or by running off the table) and the invocations
made.  `pframe` is the pointer after the three header reads.  The counter is a
`uint8_t`: the scan of a list is the C loop for tables of up to 255 entries
(the shipped table has 13), see `command_parser_loop_u8` and
`command_parser_loop_u8_eq`. -/
def command_parser_loop (cmd_code : Nat) (pframe : List Nat) (para_len : Nat) :
    List cmd_table_def → Nat → Nat × List Call
  | [], i => (i, [])
  | entry :: rest, i =>
    if cmd_code = entry.command then
      -- found it. call it.
      match entry.phandler with
      | some phandler => (i, [{ phandler := phandler, ppara := pframe, len := para_len }])
      | none => (i, [])
    else
      command_parser_loop cmd_code pframe para_len rest (i + 1)

/-- The `for` loop of `command_parser` with its counter kept as the `uint8_t`
it is declared as: the table is indexed by `i`, the test is
`i < sizeof(cmd_table)/sizeof(cmd_table_def)`, and `i++` wraps from 255 to 0.
`fuel` bounds the number of turns; `none` means the loop has not been left
within `fuel` turns. -/
def command_parser_loop_u8 (cmd_code : Nat) (pframe : List Nat) (para_len : Nat)
    (table : List cmd_table_def) : Nat → Nat → Option (Nat × List Call)
  | 0, _ => none
  | fuel + 1, i =>
    if h : i < table.length then
      if cmd_code = table[i].command then
        -- found it. call it.
        match table[i].phandler with
        | some phandler => some (i, [{ phandler := phandler, ppara := pframe, len := para_len }])
        | none => some (i, [])
      else
        command_parser_loop_u8 cmd_code pframe para_len table fuel ((i + 1) % 256)
    else
      some (i, [])

/-- A table beyond the range of the loop counter, to show what the bound of
255 entries is for: 256 handler-less entries with code 2, then one entry with
code 1 and handler `command_set_blink`, 257 entries in all. -/
def long_table_example : List cmd_table_def :=
  List.replicate 256 ⟨2, none, ""⟩ ++ [⟨1, some .command_set_blink, ""⟩]

/-- The body of `command_parser`, with the table and the device address as
arguments.  `none` is a read outside the buffer `pframe` points to. -/
def command_parser_with (table : List cmd_table_def) (address : Nat)
    (pframe : Option (List Nat)) (len : Nat) : Option (List Call) :=
  match pframe with
  | none => some []                       -- if(pframe == 0) return;
  | some p0 =>
    if len < 3 then some []               -- we have addr+cmd+len at least
    else
      match p0 with
      | [] => none
      | addr :: p1 =>                     -- addr = *pframe++;
        if addr ≠ address ∧ addr ≠ 0 then some []
        else
          match p1 with
          | [] => none
          | cmd_code :: p2 =>             -- cmd_code = *pframe++;
            match p2 with
            | [] => none
            | para_len :: p3 =>           -- para_len = *pframe++;
              some (command_parser_loop cmd_code p3 para_len table 0).2

/-- The function `command_parser(pframe, len)`, run in state `s`, where the
static `address` is read: the list of handler invocations it performs. -/
def command_parser_run {D : Type} (s : State D) (pframe : Option (List Nat)) (len : Nat) :
    Option (List Call) :=
  command_parser_with cmd_table s.address pframe len

/-- The function `_sframe_callback(pbuff, len)`. -/
def _sframe_callback {D : Type} (s : State D) (pbuff : Option (List Nat)) (len : Nat) :
    Option (List Call) :=
  command_parser_run s pbuff len

/-! ## Receive callback, initialisation, address cell -/

/-- The function `_usart_rx_callback(ch)`: the byte is written to the queue
and the result of the write is discarded. -/
def _usart_rx_callback {D : Type} (s : State D) (ch : Nat) : State D :=
  { s with uart_fifo := (fifo_write1B s.uart_fifo ch).1 }

/-- The function `commands_init(addr)`.  All three statics are overwritten, so
no earlier state enters.  `sframe_init` is the decoder state the absent
`sframe_init(&sframe, frame_buff, 128, _sframe_callback)` leaves behind. -/
def commands_init {D : Type} (sframe_init : D) (addr : Nat) : State D :=
  { address := addr, sframe := sframe_init, uart_fifo := fifo_init 128 }

/-- The function `commands_set_addr(addr)`. -/
def commands_set_addr {D : Type} (s : State D) (addr : Nat) : State D :=
  { s with address := addr }

/-- The function `commands_get_addr()`: the value returned and the state it
leaves. -/
def commands_get_addr {D : Type} (s : State D) : Nat × State D :=
  (s.address, s)

/-! ## The poll loop -/

/-- The function `commands_poll()`: while `fifo_read1B` delivers a byte, the
byte is handed to `sframe_decode(&sframe, &ch, 1)`.  The decoder belongs to the
absent `serial_frame.c`, so it is the argument `sframe_decode`, acting on the
decoder state and the bytes it is given; the queue is a file-scope static of
`commands.c`, which the decoder cannot reach. -/
def commands_poll {D : Type} (sframe_decode : D → List Nat → D) (s : State D) : State D :=
  match h : fifo_read1B s.uart_fifo with
  | some (ch, fifo) =>
    have hless : fifo.data.length < s.uart_fifo.data.length := by
      simp only [fifo_read1B] at h
      split at h
      · cases h
      · rename_i heq
        cases h
        simp [heq]
    commands_poll sframe_decode { s with uart_fifo := fifo, sframe := sframe_decode s.sframe [ch] }
  | none => s
termination_by s.uart_fifo.data.length

/-- A decoder that only records its calls: each call appends the bytes it was
given to the log.  Used to count and order the calls `commands_poll` makes. -/
def sframe_decode_log (log : List (List Nat)) (pdata : List Nat) : List (List Nat) :=
  log ++ [pdata]

/-! ## `command_parser` as a transformer of the memory -/

/-- The memory `command_parser` works on: the static `address`, the global
array `cmd_table`, and the buffer the frame pointer refers to (`none` for the
null pointer).  None of them is `const`, so a handler may write any of them. -/
structure Memory where
  address : Nat
  table : List cmd_table_def
  frame : Option (List Nat)
  deriving DecidableEq, Repr

/-- The outcome of one call of `command_parser`: the memory it leaves and the
handler invocations it has made. -/
structure Run where
  memory : Memory
  calls : List Call
  deriving DecidableEq, Repr

/-- The function `command_parser(pframe, len)` as a transformer of the
memory.  Every assignment of the function is to one of its
locals (`addr`, `cmd_code`, `para_len`, `i`, and its copy of `pframe`), so the
memory changes only through the handler it invokes; the handlers are defined
outside `commands.c`, and `run_handler` is what an invocation does to the
memory.  The frame bytes are read by index with a bounds test: `none` is a
read outside the buffer. -/
def command_parser_trace (run_handler : Call → Memory → Memory) (m : Memory) (len : Nat) :
    Option Run :=
  match m.frame with
  | none => some { memory := m, calls := [] }                    -- if(pframe == 0) return;
  | some buf =>
    if len < 3 then some { memory := m, calls := [] }
    else
      match buf[0]? with                                         -- addr = *pframe++;
      | none => none
      | some addr =>
        if addr ≠ m.address ∧ addr ≠ 0 then some { memory := m, calls := [] }
        else
          match buf[1]? with                                     -- cmd_code = *pframe++;
          | none => none
          | some cmd_code =>
            match buf[2]? with                                   -- para_len = *pframe++;
            | none => none
            | some para_len =>
              let calls := (command_parser_loop cmd_code (buf.drop 3) para_len m.table 0).2
              some { memory := calls.foldl (fun mem call => run_handler call mem) m,
                     calls := calls }

/-! ## The command assignment of the interface description -/

/-- The command assignment as the interface description lists it:
set-blink-mask(1), set-blink-speed(2), set-contrast-A(3), set-contrast-B(4),
print-string(5), set-scroll-speed(6), save-settings(7), add-temp-font(8),
set-highlight(9), set-contrast-table(10), set-device-address(0xA0); no other
code has a handler. -/
def spec_command_handler (code : Nat) : Option Handler :=
  if code = 1 then some .command_set_blink
  else if code = 2 then some .command_set_blink_speed
  else if code = 3 then some .command_set_contrastA
  else if code = 4 then some .command_set_contrastB
  else if code = 5 then some .command_print
  else if code = 6 then some .command_set_scroll_speed
  else if code = 7 then some .command_save_settings
  else if code = 8 then some .command_add_font
  else if code = 9 then some .command_set_hlight
  else if code = 10 then some .command_set_contrastC
  else if code = 0xA0 then some .command_set_addr
  else none

/-! ## General facts about the embedding -/

/-- The loop of `command_parser` over the shipped table, written out: where it
stops and what it invokes, by command code. -/
theorem command_parser_loop_cmd_table (code : Nat) (pframe : List Nat) (para_len : Nat) :
    command_parser_loop code pframe para_len cmd_table 0 =
      if code = 0xfe then (0, [])
      else if code = 0xff then (1, [])
      else if code = 1 then (2, [⟨.command_set_blink, pframe, para_len⟩])
      else if code = 2 then (3, [⟨.command_set_blink_speed, pframe, para_len⟩])
      else if code = 6 then (4, [⟨.command_set_scroll_speed, pframe, para_len⟩])
      else if code = 3 then (5, [⟨.command_set_contrastA, pframe, para_len⟩])
      else if code = 4 then (6, [⟨.command_set_contrastB, pframe, para_len⟩])
      else if code = 10 then (7, [⟨.command_set_contrastC, pframe, para_len⟩])
      else if code = 5 then (8, [⟨.command_print, pframe, para_len⟩])
      else if code = 7 then (9, [⟨.command_save_settings, pframe, para_len⟩])
      else if code = 8 then (10, [⟨.command_add_font, pframe, para_len⟩])
      else if code = 9 then (11, [⟨.command_set_hlight, pframe, para_len⟩])
      else if code = 0xa0 then (12, [⟨.command_set_addr, pframe, para_len⟩])
      else (13, []) := by
  rfl

/-- What the table lookup invokes is what the interface description assigns to
the code. -/
theorem command_parser_loop_spec (code : Nat) (pframe : List Nat) (para_len : Nat) :
    (command_parser_loop code pframe para_len cmd_table 0).2 =
      match spec_command_handler code with
      | some h => [⟨h, pframe, para_len⟩]
      | none => [] := by
  rw [command_parser_loop_cmd_table]
  unfold spec_command_handler
  have hcases : code = 1 ∨ code = 2 ∨ code = 3 ∨ code = 4 ∨ code = 5 ∨ code = 6 ∨ code = 7 ∨
      code = 8 ∨ code = 9 ∨ code = 10 ∨ code = 0xa0 ∨ code = 0xfe ∨ code = 0xff ∨
      (code ≠ 1 ∧ code ≠ 2 ∧ code ≠ 3 ∧ code ≠ 4 ∧ code ≠ 5 ∧ code ≠ 6 ∧ code ≠ 7 ∧
        code ≠ 8 ∧ code ≠ 9 ∧ code ≠ 10 ∧ code ≠ 0xa0 ∧ code ≠ 0xfe ∧ code ≠ 0xff) := by
    omega
  rcases hcases with h | h | h | h | h | h | h | h | h | h | h | h | h | h
  all_goals first
    | (subst h; rfl)
    | (obtain ⟨h1, h2, h3, h4, h5, h6, h7, h8, h9, h10, h11, h12, h13⟩ := h
       simp only [if_neg h1, if_neg h2, if_neg h3, if_neg h4, if_neg h5, if_neg h6, if_neg h7,
         if_neg h8, if_neg h9, if_neg h10, if_neg h11, if_neg h12, if_neg h13])

/-- Every entry of the shipped table carries the handler the interface
description assigns to its code (none for the two reserved codes). -/
theorem cmd_table_entry_spec :
    ∀ entry ∈ cmd_table, entry.phandler = spec_command_handler entry.command := by
  decide

/-- A frame that passes the length and the address test is looked up in the
table: the invocations are those of the loop. -/
theorem command_parser_accepted {D : Type} (s : State D) (addr cmd_code para_len : Nat)
    (params : List Nat) (len : Nat) (hlen : 3 ≤ len) (haddr : addr = s.address ∨ addr = 0) :
    command_parser_run s (some (addr :: cmd_code :: para_len :: params)) len =
      some (command_parser_loop cmd_code params para_len cmd_table 0).2 := by
  have hlen' : ¬ len < 3 := by omega
  have hkeep : ¬ (addr ≠ s.address ∧ addr ≠ 0) := by
    rcases haddr with h | h <;> simp [h]
  simp only [command_parser_run, command_parser_with, if_neg hlen', if_neg hkeep]

/-- A list whose index 2 is readable has the three header bytes in front. -/
theorem frame_header_of_get {frame : List Nat} {b0 b1 b2 : Nat}
    (h0 : frame[0]? = some b0) (h1 : frame[1]? = some b1) (h2 : frame[2]? = some b2) :
    frame = b0 :: b1 :: b2 :: frame.drop 3 := by
  match frame, h0, h1, h2 with
  | a :: c :: n :: rest, h0, h1, h2 =>
    simp at h0 h1 h2
    simp [h0, h1, h2]

/-- A code outside 1..10 and 0xA0 has no handler in the interface
description. -/
theorem spec_command_handler_none {code : Nat}
    (h : code ∉ [1, 2, 3, 4, 5, 6, 7, 8, 9, 10, 0xA0]) : spec_command_handler code = none := by
  simp only [List.mem_cons, List.mem_singleton, List.not_mem_nil, or_false, not_or] at h
  obtain ⟨h1, h2, h3, h4, h5, h6, h7, h8, h9, h10, h11⟩ := h
  simp only [spec_command_handler, if_neg h1, if_neg h2, if_neg h3, if_neg h4, if_neg h5,
    if_neg h6, if_neg h7, if_neg h8, if_neg h9, if_neg h10, if_neg h11]

/-- On an empty queue the poll loop does nothing. -/
theorem commands_poll_empty {D : Type} (sframe_decode : D → List Nat → D) (s : State D)
    (hempty : s.uart_fifo.data = []) : commands_poll sframe_decode s = s := by
  rw [commands_poll]
  split
  · rename_i ch fifo h
    simp [fifo_read1B, hempty] at h
  · rfl

/-- One turn of the poll loop: the oldest byte leaves the queue and is handed
to the decoder, alone. -/
theorem commands_poll_step {D : Type} (sframe_decode : D → List Nat → D) (s : State D)
    (ch : Nat) (rest : List Nat) (hdata : s.uart_fifo.data = ch :: rest) :
    commands_poll sframe_decode s =
      commands_poll sframe_decode
        { s with uart_fifo := { s.uart_fifo with data := rest },
                 sframe := sframe_decode s.sframe [ch] } := by
  rw [commands_poll]
  split
  · rename_i ch' fifo h
    simp only [fifo_read1B, hdata, Option.some.injEq, Prod.mk.injEq] at h
    obtain ⟨h1, h2⟩ := h
    subst h1 h2
    rfl
  · rename_i h
    simp [fifo_read1B, hdata] at h

/-- The poll loop, closed form: the queue ends empty with its capacity kept,
the address is not written, and the decoder state is the fold of the decoder
over the queued bytes, oldest first, one byte per call. -/
theorem commands_poll_eq {D : Type} (sframe_decode : D → List Nat → D) (s : State D) :
    commands_poll sframe_decode s =
      { address := s.address,
        sframe := s.uart_fifo.data.foldl (fun d ch => sframe_decode d [ch]) s.sframe,
        uart_fifo := { data := [], capacity := s.uart_fifo.capacity } } := by
  obtain ⟨address, sframe, data, capacity⟩ := s
  induction data generalizing sframe with
  | nil => exact commands_poll_empty sframe_decode _ rfl
  | cons ch rest ih =>
    rw [commands_poll_step sframe_decode _ ch rest rfl]
    exact ih _

/-- The recording decoder, folded over single bytes, appends one singleton
per byte. -/
theorem sframe_decode_log_foldl (bytes : List Nat) (log : List (List Nat)) :
    bytes.foldl (fun d ch => sframe_decode_log d [ch]) log = log ++ bytes.map (fun ch => [ch]) := by
  induction bytes generalizing log with
  | nil => simp
  | cons ch rest ih =>
    rw [List.foldl_cons, ih]
    simp [sframe_decode_log]

/-- A burst of receive callbacks with no drain in between: the queue takes the
bytes that still fit, in arrival order, and nothing else changes. -/
theorem _usart_rx_callback_burst {D : Type} (bytes : List Nat) (s : State D) :
    bytes.foldl _usart_rx_callback s =
      { address := s.address,
        sframe := s.sframe,
        uart_fifo :=
          { data := s.uart_fifo.data ++ bytes.take (s.uart_fifo.capacity - s.uart_fifo.data.length),
            capacity := s.uart_fifo.capacity } } := by
  induction bytes generalizing s with
  | nil => simp
  | cons ch rest ih =>
    rw [List.foldl_cons, ih]
    obtain ⟨address, sframe, data, capacity⟩ := s
    by_cases hroom : data.length < capacity
    · have hsplit : capacity - data.length = (capacity - (data.length + 1)) + 1 := by omega
      simp [_usart_rx_callback, fifo_write1B, hroom, hsplit]
    · have hfull : capacity - data.length = 0 := by omega
      simp [_usart_rx_callback, fifo_write1B, hroom, hfull]

/-- An accepted frame with a handled code gets exactly one invocation, that of
the handler of the entry with its code, on the bytes after the header. -/
theorem command_parser_handled {D : Type} (s : State D) (frame : List Nat)
    (len : Nat) (entry : cmd_table_def) (handler : Handler) (para_len : Nat)
    (hlen : 3 ≤ len)
    (haddr : frame[0]? = some s.address ∨ frame[0]? = some 0)
    (hentry : entry ∈ cmd_table)
    (hcode : frame[1]? = some entry.command)
    (hhandler : entry.phandler = some handler)
    (hpara : frame[2]? = some para_len) :
    command_parser_run s (some frame) len =
      some [{ phandler := handler, ppara := frame.drop 3, len := para_len }] := by
  obtain ⟨addr, haddr0, haddr'⟩ : ∃ addr, frame[0]? = some addr ∧ (addr = s.address ∨ addr = 0) := by
    rcases haddr with h | h
    · exact ⟨_, h, Or.inl rfl⟩
    · exact ⟨_, h, Or.inr rfl⟩
  rw [frame_header_of_get haddr0 hcode hpara]
  rw [command_parser_accepted s _ _ _ _ len hlen haddr', command_parser_loop_spec]
  rw [← cmd_table_entry_spec entry hentry, hhandler]
  simp

/-! ## C1: dispatch of an accepted frame with a handled code -/

/-- C1: for every device address and every frame of length at least 3 whose
byte 0 is the device address or 0 and whose byte 1 is the code of a table entry
with a registered handler, `command_parser` performs exactly one invocation:
that entry's handler, with the bytes of the frame from index 3 onward and with
byte 2 as the length argument. -/
theorem command_parser_dispatches_handler {D : Type} (s : State D) (frame : List Nat)
    (len : Nat) (entry : cmd_table_def) (handler : Handler) (para_len : Nat)
    (hlen : 3 ≤ len)
    (haddr : frame[0]? = some s.address ∨ frame[0]? = some 0)
    (hentry : entry ∈ cmd_table)
    (hcode : frame[1]? = some entry.command)
    (hhandler : entry.phandler = some handler)
    (hpara : frame[2]? = some para_len) :
    command_parser_run s (some frame) len =
      some [{ phandler := handler, ppara := frame.drop 3, len := para_len }] :=
  command_parser_handled s frame len entry handler para_len hlen haddr hentry hcode hhandler hpara

/-- C1, the two end-to-end scenarios: with address 5 the frame
`[5, 1, 2, 0x01, 0x02]` invokes `command_set_blink` with parameters
`[0x01, 0x02]` and length 2, and the broadcast frame `[0, 7, 0]` invokes
`command_save_settings` with length 0. -/
theorem command_parser_dispatches_handler_witness :
    command_parser_run (⟨5, (), fifo_init 128⟩ : State Unit) (some [5, 1, 2, 0x01, 0x02]) 5 =
        some [{ phandler := .command_set_blink, ppara := [0x01, 0x02], len := 2 }] ∧
      command_parser_run (⟨5, (), fifo_init 128⟩ : State Unit) (some [0, 7, 0]) 3 =
        some [{ phandler := .command_save_settings, ppara := [], len := 0 }] :=
  ⟨command_parser_dispatches_handler ⟨5, (), fifo_init 128⟩ [5, 1, 2, 0x01, 0x02] 5
      ⟨CMD_SETBLINK, some .command_set_blink, ""⟩ .command_set_blink 2
      (by decide) (Or.inl rfl) (by decide) rfl rfl rfl,
    command_parser_dispatches_handler ⟨5, (), fifo_init 128⟩ [0, 7, 0] 3
      ⟨CMD_SAVE_SETTING, some .command_save_settings, ""⟩ .command_save_settings 0
      (by decide) (Or.inr rfl) (by decide) rfl rfl rfl⟩

/-! ## C2: frames addressed to another device -/

/-- C2: for every device address and every frame, of any length and any
command code, whose byte 0 is neither the device address nor 0,
`command_parser` invokes no handler. -/
theorem command_parser_foreign_address {D : Type} (s : State D) (addr : Nat)
    (rest : List Nat) (len : Nat) (hother : addr ≠ s.address) (hbroadcast : addr ≠ 0) :
    command_parser_run s (some (addr :: rest)) len = some [] := by
  unfold command_parser_run command_parser_with
  by_cases hlen : len < 3
  · simp [hlen]
  · simp [hlen, hother, hbroadcast]

/-- C2, scenario 3: with address 5 the frame `[9, 1, 2, 0x01, 0x02]`,
addressed to device 9, invokes nothing; neither does a set-address frame for
device 9. -/
theorem command_parser_foreign_address_witness :
    command_parser_run (⟨5, (), fifo_init 128⟩ : State Unit) (some [9, 1, 2, 0x01, 0x02]) 5 = some [] ∧
      command_parser_run (⟨5, (), fifo_init 128⟩ : State Unit) (some [9, 0xA0, 1, 7]) 4 = some [] :=
  ⟨command_parser_foreign_address ⟨5, (), fifo_init 128⟩ 9 [1, 2, 0x01, 0x02] 5
      (by decide) (by decide),
    command_parser_foreign_address ⟨5, (), fifo_init 128⟩ 9 [0xA0, 1, 7] 4
      (by decide) (by decide)⟩

/-! ## C3: absent and short frames -/

/-- C3: a call of `command_parser` with a null frame pointer, or with a length
below 3, invokes no handler, whatever the device address and the bytes in the
buffer are. -/
theorem command_parser_null_or_short {D : Type} (s : State D) (len : Nat) :
    command_parser_run s none len = some [] ∧
      ∀ buf : List Nat, len < 3 → command_parser_run s (some buf) len = some [] := by
  refine ⟨rfl, ?_⟩
  intro buf hlen
  simp [command_parser_run, command_parser_with, hlen]

/-- C3 at concrete inputs: with address 5, a null pointer with length 9 and
the buffer `[5, 1, 2, 0x01, 0x02]` announced with length 2 both invoke nothing,
although byte 0 is the device address and byte 1 a defined code. -/
theorem command_parser_null_or_short_witness :
    command_parser_run (⟨5, (), fifo_init 128⟩ : State Unit) none 9 = some [] ∧
      command_parser_run (⟨5, (), fifo_init 128⟩ : State Unit) (some [5, 1, 2, 0x01, 0x02]) 2 = some [] :=
  ⟨(command_parser_null_or_short ⟨5, (), fifo_init 128⟩ 9).1,
    (command_parser_null_or_short ⟨5, (), fifo_init 128⟩ 2).2 [5, 1, 2, 0x01, 0x02] (by decide)⟩

/-! ## C4: the command table -/

/-- C4: the lookup of `command_parser` in `cmd_table` yields, for every code,
the handler the interface description lists for it (1 `command_set_blink`,
2 `command_set_blink_speed`, 3 `command_set_contrastA`, 4 `command_set_contrastB`,
5 `command_print`, 6 `command_set_scroll_speed`, 7 `command_save_settings`,
8 `command_add_font`, 9 `command_set_hlight`, 10 `command_set_contrastC`,
0xA0 `command_set_addr`) and nothing for any other code; the codes with an
entry are exactly these eleven together with 0xFE and 0xFF; and every entry
carries the listed handler, the entries 0xFE and 0xFF carrying none. -/
theorem cmd_table_maps_listed_codes :
    (∀ code pframe para_len,
        (command_parser_loop code pframe para_len cmd_table 0).2 =
          match spec_command_handler code with
          | some handler => [{ phandler := handler, ppara := pframe, len := para_len }]
          | none => []) ∧
      (∀ code, (∃ entry ∈ cmd_table, entry.command = code) ↔
          code ∈ [1, 2, 3, 4, 5, 6, 7, 8, 9, 10, 0xA0, 0xFE, 0xFF]) ∧
      (∀ entry ∈ cmd_table, entry.phandler = spec_command_handler entry.command) ∧
      spec_command_handler 0xFE = none ∧ spec_command_handler 0xFF = none := by
  refine ⟨command_parser_loop_spec, ?_, cmd_table_entry_spec, rfl, rfl⟩
  intro code
  simp only [cmd_table, CMD_HELLO, CMD_SYS, CMD_SETBLINK, CMD_SETBLINK_SPEED,
    CMD_SETSCROLL_SPEED, CMD_SETCONTRASTA, CMD_SETCONTRASTB, CMD_SETCONTRASTC, CMD_PRINT,
    CMD_SAVE_SETTING, CMD_ADD_FONT, CMD_SET_HLIGHT, CMD_SET_ADDR, List.mem_cons,
    List.mem_singleton, List.not_mem_nil, or_false, exists_eq_or_imp, exists_eq_left]
  omega

/-! ## C5: codes without a handler -/

/-- C5: for every frame held in a buffer of at least `len` bytes, whatever its
address byte and its length, whose command code is not one of 1..10 or 0xA0,
`command_parser` returns normally having invoked no handler; the codes 0,
11..0x9F and 0xA1..0xFD are such codes and have no table entry. -/
theorem command_parser_unhandled_code {D : Type} (s : State D) (frame : List Nat) (len : Nat)
    (hbuf : len ≤ frame.length)
    (hcode : ∀ code, frame[1]? = some code → code ∉ [1, 2, 3, 4, 5, 6, 7, 8, 9, 10, 0xA0]) :
    command_parser_run s (some frame) len = some [] ∧
      ∀ code, code = 0 ∨ (11 ≤ code ∧ code ≤ 0x9F) ∨ (0xA1 ≤ code ∧ code ≤ 0xFD) →
        code ∉ [1, 2, 3, 4, 5, 6, 7, 8, 9, 10, 0xA0] ∧
          ∀ entry ∈ cmd_table, entry.command ≠ code := by
  constructor
  · by_cases hlen : len < 3
    · exact (by simp [command_parser_run, command_parser_with, hlen])
    · match frame, hbuf, hcode with
      | [], hbuf, _ => simp at hbuf; omega
      | [_], hbuf, _ => simp at hbuf; omega
      | [_, _], hbuf, _ => simp at hbuf; omega
      | addr :: cmd_code :: para_len :: params, _, hcode =>
        by_cases hkeep : addr ≠ s.address ∧ addr ≠ 0
        · simp [command_parser_run, command_parser_with, hlen, hkeep]
        · have haddr : addr = s.address ∨ addr = 0 := by
            by_cases h : addr = s.address
            · exact Or.inl h
            · exact Or.inr (by simpa [h] using hkeep)
          rw [command_parser_accepted s _ _ _ _ len (by omega) haddr, command_parser_loop_spec,
            spec_command_handler_none (hcode cmd_code rfl)]
  · intro code hrange
    constructor
    · simp only [List.mem_cons, List.mem_singleton, List.not_mem_nil, or_false]
      omega
    · intro entry hentry
      simp only [cmd_table, CMD_HELLO, CMD_SYS, CMD_SETBLINK, CMD_SETBLINK_SPEED,
        CMD_SETSCROLL_SPEED, CMD_SETCONTRASTA, CMD_SETCONTRASTB, CMD_SETCONTRASTC, CMD_PRINT,
        CMD_SAVE_SETTING, CMD_ADD_FONT, CMD_SET_HLIGHT, CMD_SET_ADDR, List.mem_cons,
        List.mem_singleton, List.not_mem_nil, or_false] at hentry
      rcases hentry with h | h | h | h | h | h | h | h | h | h | h | h | h <;>
        (subst h; simp only; omega)

/-- C5 at concrete inputs: with address 5, the frames `[5, 0, 0]` (reserved
code 0), `[0, 0x42, 1, 9]` (broadcast, code without entry) and `[5, 0xFD, 0]`
invoke nothing. -/
theorem command_parser_unhandled_code_witness :
    command_parser_run (⟨5, (), fifo_init 128⟩ : State Unit) (some [5, 0, 0]) 3 = some [] ∧
      command_parser_run (⟨5, (), fifo_init 128⟩ : State Unit) (some [0, 0x42, 1, 9]) 4 = some [] ∧
      command_parser_run (⟨5, (), fifo_init 128⟩ : State Unit) (some [5, 0xFD, 0]) 3 = some [] :=
  ⟨(command_parser_unhandled_code ⟨5, (), fifo_init 128⟩ [5, 0, 0] 3 (by decide)
      (by intro code h; cases h; decide)).1,
    (command_parser_unhandled_code ⟨5, (), fifo_init 128⟩ [0, 0x42, 1, 9] 4 (by decide)
      (by intro code h; cases h; decide)).1,
    (command_parser_unhandled_code ⟨5, (), fifo_init 128⟩ [5, 0xFD, 0] 3 (by decide)
      (by intro code h; cases h; decide)).1⟩

/-! ## C6: the reserved codes 0xFE and 0xFF -/

/-- C6: for every accepted frame (length at least 3, byte 0 the device address
or 0) whose code is 0xFE or 0xFF, `command_parser` invokes nothing, and its
loop is left at the index of a table entry that has this code and no handler:
the entry is found and the scan stops there. -/
theorem command_parser_reserved_code {D : Type} (s : State D) (frame : List Nat) (len : Nat)
    (code para_len : Nat) (hlen : 3 ≤ len)
    (haddr : frame[0]? = some s.address ∨ frame[0]? = some 0)
    (hcode : frame[1]? = some code) (hreserved : code = 0xFE ∨ code = 0xFF)
    (hpara : frame[2]? = some para_len) :
    command_parser_run s (some frame) len = some [] ∧
      ∃ i entry, cmd_table[i]? = some entry ∧ entry.command = code ∧ entry.phandler = none ∧
        command_parser_loop code (frame.drop 3) para_len cmd_table 0 = (i, []) := by
  obtain ⟨addr, haddr0, haddr'⟩ : ∃ addr, frame[0]? = some addr ∧ (addr = s.address ∨ addr = 0) := by
    rcases haddr with h | h
    · exact ⟨_, h, Or.inl rfl⟩
    · exact ⟨_, h, Or.inr rfl⟩
  constructor
  · rw [frame_header_of_get haddr0 hcode hpara]
    rw [command_parser_accepted s _ _ _ _ len hlen haddr', command_parser_loop_cmd_table]
    rcases hreserved with h | h <;> subst h <;> rfl
  · rcases hreserved with h | h <;> subst h
    · exact ⟨0, ⟨CMD_HELLO, none, "command hello"⟩, rfl, rfl, rfl, rfl⟩
    · exact ⟨1, ⟨CMD_SYS, none, "reserved command"⟩, rfl, rfl, rfl, rfl⟩

/-- C6, scenario 4: with address 5 the hello frame `[5, 0xFE, 0]` invokes
nothing and the scan stops at a handler-less entry; the same for the broadcast
frame `[0, 0xFF, 0]`. -/
theorem command_parser_reserved_code_witness :
    (command_parser_run (⟨5, (), fifo_init 128⟩ : State Unit) (some [5, 0xFE, 0]) 3 = some [] ∧
        ∃ i entry, cmd_table[i]? = some entry ∧ entry.command = 0xFE ∧ entry.phandler = none ∧
          command_parser_loop 0xFE [] 0 cmd_table 0 = (i, [])) ∧
      command_parser_run (⟨5, (), fifo_init 128⟩ : State Unit) (some [0, 0xFF, 0]) 3 = some [] :=
  ⟨command_parser_reserved_code ⟨5, (), fifo_init 128⟩ [5, 0xFE, 0] 3 0xFE 0
      (by decide) (Or.inl rfl) rfl (Or.inl rfl) rfl,
    (command_parser_reserved_code ⟨5, (), fifo_init 128⟩ [0, 0xFF, 0] 3 0xFF 0
      (by decide) (Or.inr rfl) rfl (Or.inr rfl) rfl).1⟩

/-! ## C7: the address filter after a change of address -/

/-- C7, as stated, fails when the old address is 0 or equals the new one: after
`commands_set_addr(5)` on a device whose address was 0, the frame `[0, 1, 0]`
with byte 0 equal to the old address still runs `command_set_blink` (0 is the
broadcast address); and after `commands_set_addr(5)` on a device whose address
was already 5, the frame `[5, 1, 0]` runs it as well. -/
theorem commands_set_addr_old_address_counterexample :
    command_parser_run (commands_set_addr (⟨0, (), fifo_init 128⟩ : State Unit) 5) (some [0, 1, 0]) 3 =
        some [{ phandler := .command_set_blink, ppara := [], len := 0 }] ∧
      command_parser_run (commands_set_addr (⟨5, (), fifo_init 128⟩ : State Unit) 5) (some [5, 1, 0]) 3 =
        some [{ phandler := .command_set_blink, ppara := [], len := 0 }] := by
  decide

/-- C7, amended: once `commands_set_addr(new)` has changed the device address
from the old value `s.address` to `new`, the next `command_parser` call accepts
every frame whose byte 0 is `new` (a handled code gets its handler invoked),
and, provided the old address is not 0 and differs from `new`, it runs no
handler for a frame whose byte 0 is the old address. -/
theorem commands_set_addr_updates_filter {D : Type} (s : State D) (new : Nat) :
    (∀ (frame : List Nat) (len : Nat) (entry : cmd_table_def) (handler : Handler) (para_len : Nat),
        3 ≤ len → frame[0]? = some new → entry ∈ cmd_table →
        frame[1]? = some entry.command → entry.phandler = some handler →
        frame[2]? = some para_len →
        command_parser_run (commands_set_addr s new) (some frame) len =
          some [{ phandler := handler, ppara := frame.drop 3, len := para_len }]) ∧
      (s.address ≠ new → s.address ≠ 0 → ∀ (rest : List Nat) (len : Nat),
        command_parser_run (commands_set_addr s new) (some (s.address :: rest)) len = some []) := by
  constructor
  · intro frame len entry handler para_len hlen haddr hentry hcode hhandler hpara
    exact command_parser_handled (commands_set_addr s new) frame len entry handler para_len hlen
      (Or.inl haddr) hentry hcode hhandler hpara
  · intro hne hzero rest len
    unfold command_parser_run command_parser_with
    by_cases hlen : len < 3
    · simp [hlen]
    · simp [hlen, commands_set_addr, hne, hzero]

/-- C7, amended, at a concrete change from address 5 to address 9: the frame
`[9, 1, 2, 0x01, 0x02]` now runs `command_set_blink`, the frame
`[5, 1, 2, 0x01, 0x02]` runs nothing. -/
theorem commands_set_addr_updates_filter_witness :
    command_parser_run (commands_set_addr (⟨5, (), fifo_init 128⟩ : State Unit) 9)
        (some [9, 1, 2, 0x01, 0x02]) 5 =
        some [{ phandler := .command_set_blink, ppara := [0x01, 0x02], len := 2 }] ∧
      command_parser_run (commands_set_addr (⟨5, (), fifo_init 128⟩ : State Unit) 9)
        (some [5, 1, 2, 0x01, 0x02]) 5 = some [] :=
  ⟨(commands_set_addr_updates_filter ⟨5, (), fifo_init 128⟩ 9).1 [9, 1, 2, 0x01, 0x02] 5
      ⟨CMD_SETBLINK, some .command_set_blink, ""⟩ .command_set_blink 2
      (by decide) rfl (by decide) rfl rfl rfl,
    (commands_set_addr_updates_filter ⟨5, (), fifo_init 128⟩ 9).2 (by decide) (by decide)
      [1, 2, 0x01, 0x02] 5⟩

/-! ## C8: the address cell -/

/-- C8: `commands_get_addr` returns `v` right after `commands_set_addr(v)` and
right after `commands_init(v)`; `commands_get_addr` leaves the state as it
is; `commands_set_addr(v)` followed by `commands_set_addr(w)` leaves the state
`commands_set_addr(w)` alone leaves; and `commands_set_addr` writes the address
only. -/
theorem address_cell_last_write_wins {D : Type} (s : State D) (sframe_init : D) (v w : Nat) :
    (commands_get_addr (commands_set_addr s v)).1 = v ∧
      (commands_get_addr (commands_init sframe_init v)).1 = v ∧
      (commands_get_addr s).2 = s ∧
      commands_set_addr (commands_set_addr s v) w = commands_set_addr s w ∧
      (commands_set_addr s v).sframe = s.sframe ∧
      (commands_set_addr s v).uart_fifo = s.uart_fifo :=
  ⟨rfl, rfl, rfl, rfl, rfl, rfl⟩

/-! ## C9: the poll loop -/

/-- C9: with the queue holding the bytes `b1..bn`, `commands_poll` returns
with the queue empty and with the decoder having been fed `b1`, ..., `bn` in
this order, one byte per call: the decoder state is the fold of the decoder
over the queued bytes, and the recording decoder has logged exactly the `n`
calls `[b1]`, ..., `[bn]`.  On an empty queue the state is left as it is and no
call is made. -/
theorem commands_poll_feeds_in_order {D : Type} (sframe_decode : D → List Nat → D)
    (s : State D) (log : List (List Nat)) :
    (commands_poll sframe_decode s).uart_fifo.data = [] ∧
      (commands_poll sframe_decode s).sframe =
        s.uart_fifo.data.foldl (fun d ch => sframe_decode d [ch]) s.sframe ∧
      (commands_poll sframe_decode_log ⟨s.address, log, s.uart_fifo⟩).sframe =
        log ++ s.uart_fifo.data.map (fun ch => [ch]) ∧
      ((commands_poll sframe_decode_log ⟨s.address, log, s.uart_fifo⟩).sframe).length =
        log.length + s.uart_fifo.data.length ∧
      (s.uart_fifo.data = [] →
        commands_poll sframe_decode s = s ∧
          (commands_poll sframe_decode_log ⟨s.address, log, s.uart_fifo⟩).sframe = log) := by
  have hlog : (commands_poll sframe_decode_log ⟨s.address, log, s.uart_fifo⟩).sframe =
      log ++ s.uart_fifo.data.map (fun ch => [ch]) := by
    rw [commands_poll_eq, sframe_decode_log_foldl]
  refine ⟨?_, ?_, hlog, ?_, ?_⟩
  · rw [commands_poll_eq]
  · rw [commands_poll_eq]
  · rw [hlog]
    simp
  · intro hempty
    refine ⟨commands_poll_empty sframe_decode s hempty, ?_⟩
    rw [hlog, hempty]
    simp

/-- C9 at concrete inputs: from the queue `[7, 8, 9]` the recording decoder
receives `[7]`, `[8]`, `[9]` and the queue ends empty; from the empty queue it
receives nothing. -/
theorem commands_poll_feeds_in_order_witness :
    (commands_poll sframe_decode_log ⟨5, [], ⟨[7, 8, 9], 128⟩⟩).sframe = [[7], [8], [9]] ∧
      (commands_poll sframe_decode_log ⟨5, [], ⟨[7, 8, 9], 128⟩⟩).uart_fifo.data = [] ∧
      commands_poll sframe_decode_log ⟨5, [], ⟨[], 128⟩⟩ = ⟨5, [], ⟨[], 128⟩⟩ :=
  ⟨(commands_poll_feeds_in_order sframe_decode_log ⟨5, [], ⟨[7, 8, 9], 128⟩⟩ []).2.2.1,
    (commands_poll_feeds_in_order sframe_decode_log ⟨5, [], ⟨[7, 8, 9], 128⟩⟩ []).1,
    ((commands_poll_feeds_in_order sframe_decode_log ⟨5, [], ⟨[], 128⟩⟩ []).2.2.2.2 rfl).1⟩

/-! ## C10: overflow of the receive queue -/

/-- C10: after `commands_init`, let the receive callback deliver `bytes` with
no drain in between.  A further push is accepted exactly when fewer than 128
bytes have been delivered; once 128 or more have been delivered the callback
leaves the state untouched, so the excess byte is dropped without trace.  The
queue holds the first 128 bytes delivered, in arrival order, and
`commands_poll` then feeds exactly these to the decoder, in this order, one per
call, and empties the queue. -/
theorem rx_queue_overflow_drops_excess {D : Type} (sframe_init : D) (addr : Nat)
    (sframe_decode : D → List Nat → D) (bytes : List Nat) (ch : Nat) :
    (fifo_write1B (bytes.foldl _usart_rx_callback (commands_init sframe_init addr)).uart_fifo ch).2 =
        decide (bytes.length < 128) ∧
      (128 ≤ bytes.length →
        _usart_rx_callback (bytes.foldl _usart_rx_callback (commands_init sframe_init addr)) ch =
          bytes.foldl _usart_rx_callback (commands_init sframe_init addr)) ∧
      (bytes.foldl _usart_rx_callback (commands_init sframe_init addr)).uart_fifo.data =
        bytes.take 128 ∧
      (commands_poll sframe_decode
          (bytes.foldl _usart_rx_callback (commands_init sframe_init addr))).sframe =
        (bytes.take 128).foldl (fun d b => sframe_decode d [b]) sframe_init ∧
      (commands_poll sframe_decode_log
          (bytes.foldl _usart_rx_callback (commands_init [] addr))).sframe =
        (bytes.take 128).map (fun b => [b]) ∧
      (commands_poll sframe_decode
          (bytes.foldl _usart_rx_callback (commands_init sframe_init addr))).uart_fifo.data = [] := by
  have hburst : ∀ {E : Type} (e : E), bytes.foldl _usart_rx_callback (commands_init e addr) =
      { address := addr, sframe := e,
        uart_fifo := { data := bytes.take 128, capacity := 128 } } := by
    intro E e
    rw [_usart_rx_callback_burst]
    simp [commands_init, fifo_init]
  rw [hburst sframe_init, hburst ([] : List (List Nat))]
  have hlen : (bytes.take 128).length = min 128 bytes.length := List.length_take 128 bytes
  refine ⟨?_, ?_, rfl, ?_, ?_, ?_⟩
  · by_cases h : bytes.length < 128
    · have h' : (bytes.take 128).length < 128 := by omega
      simp [fifo_write1B, h, h']
    · have h' : ¬ (bytes.take 128).length < 128 := by omega
      simp [fifo_write1B, h, h']
  · intro hfull
    have h' : ¬ bytes.length < 128 := by omega
    simp [_usart_rx_callback, fifo_write1B, h']
  · rw [commands_poll_eq]
  · rw [commands_poll_eq, sframe_decode_log_foldl]
    simp
  · rw [commands_poll_eq]

/-- C10 at a concrete burst: 130 bytes `0, 1, ..., 129` pushed after
`commands_init`; the push of a 131st byte is rejected and changes nothing, and
the poll loop feeds the bytes `0, ..., 127` in order. -/
theorem rx_queue_overflow_drops_excess_witness :
    (fifo_write1B ((List.range 130).foldl _usart_rx_callback
        (commands_init () 5)).uart_fifo 77).2 = false ∧
      _usart_rx_callback ((List.range 130).foldl _usart_rx_callback (commands_init () 5)) 77 =
        (List.range 130).foldl _usart_rx_callback (commands_init () 5) ∧
      (commands_poll sframe_decode_log
          ((List.range 130).foldl _usart_rx_callback (commands_init [] 5))).sframe =
        (List.range 128).map (fun b => [b]) :=
  ⟨(rx_queue_overflow_drops_excess () 5 (fun d _ => d) (List.range 130) 77).1.trans (by simp),
    (rx_queue_overflow_drops_excess () 5 (fun d _ => d) (List.range 130) 77).2.1 (by simp),
    (rx_queue_overflow_drops_excess () 5 (fun d _ => d) (List.range 130) 77).2.2.2.2.1.trans
      (by rw [List.take_range]; rfl)⟩

/-! ## Facts about the recorded run and about the scan -/

/-- The recorded run makes the invocations of `command_parser_with`, and takes
the out-of-range branch exactly when it does. -/
theorem command_parser_trace_calls (run_handler : Call → Memory → Memory) (m : Memory)
    (len : Nat) :
    (command_parser_trace run_handler m len).map (fun r => r.calls) =
      command_parser_with m.table m.address m.frame len := by
  obtain ⟨address, table, frame⟩ := m
  unfold command_parser_trace command_parser_with
  match frame with
  | none => rfl
  | some [] => by_cases hlen : len < 3 <;> simp [hlen]
  | some [addr] =>
    by_cases hlen : len < 3 <;> by_cases hkeep : addr ≠ address ∧ addr ≠ 0 <;> simp [hlen, hkeep]
  | some [addr, cmd_code] =>
    by_cases hlen : len < 3 <;> by_cases hkeep : addr ≠ address ∧ addr ≠ 0 <;> simp [hlen, hkeep]
  | some (addr :: cmd_code :: para_len :: params) =>
    by_cases hlen : len < 3 <;> by_cases hkeep : addr ≠ address ∧ addr ≠ 0 <;> simp [hlen, hkeep]

/-- A scan that meets no entry with the code runs off the table and invokes
nothing. -/
theorem command_parser_loop_no_match (code : Nat) (pframe : List Nat) (para_len : Nat)
    (table : List cmd_table_def) (i : Nat) (hnone : ∀ entry ∈ table, entry.command ≠ code) :
    command_parser_loop code pframe para_len table i = (i + table.length, []) := by
  induction table generalizing i with
  | nil => rfl
  | cons entry rest ih =>
    have hne : ¬ code = entry.command := fun h => hnone entry (List.mem_cons_self _ _) h.symm
    have hrest : ∀ e ∈ rest, e.command ≠ code := fun e he => hnone e (List.mem_cons_of_mem _ he)
    simp only [command_parser_loop, if_neg hne, ih (i + 1) hrest, List.length_cons]
    congr 1
    omega

/-- A scan stops at the first entry with the code: the entries before it are
passed over, the entries after it are never looked at. -/
theorem command_parser_loop_first_match (code : Nat) (pframe : List Nat) (para_len : Nat)
    (pre : List cmd_table_def) (entry : cmd_table_def) (post : List cmd_table_def) (i : Nat)
    (hpre : ∀ e ∈ pre, e.command ≠ code) (hentry : entry.command = code) :
    command_parser_loop code pframe para_len (pre ++ entry :: post) i =
      (i + pre.length,
        match entry.phandler with
        | some handler => [{ phandler := handler, ppara := pframe, len := para_len }]
        | none => []) := by
  induction pre generalizing i with
  | nil =>
    simp only [List.nil_append, command_parser_loop, hentry, if_true, List.length_nil, Nat.add_zero]
    cases entry.phandler <;> rfl
  | cons e rest ih =>
    have hne : ¬ code = e.command := fun h => hpre e (List.mem_cons_self _ _) h.symm
    have hrest : ∀ x ∈ rest, x.command ≠ code := fun x hx => hpre x (List.mem_cons_of_mem _ hx)
    have hstep : command_parser_loop code pframe para_len ((e :: rest) ++ entry :: post) i =
        command_parser_loop code pframe para_len (rest ++ entry :: post) (i + 1) := by
      rw [List.cons_append, command_parser_loop, if_neg hne]
    rw [hstep, ih (i + 1) hrest, List.length_cons]
    congr 1
    omega

/-- A scan makes at most one invocation. -/
theorem command_parser_loop_at_most_one (code : Nat) (pframe : List Nat) (para_len : Nat)
    (table : List cmd_table_def) (i : Nat) :
    (command_parser_loop code pframe para_len table i).2.length ≤ 1 := by
  induction table generalizing i with
  | nil => simp [command_parser_loop]
  | cons entry rest ih =>
    unfold command_parser_loop
    by_cases hcode : code = entry.command
    · rw [if_pos hcode]
      cases entry.phandler <;> simp
    · rw [if_neg hcode]
      exact ih (i + 1)

/-- Over any table, a frame that passes the length and the address test is
looked up in the table. -/
theorem command_parser_with_accepted (table : List cmd_table_def) (address : Nat)
    (addr cmd_code para_len : Nat) (params : List Nat) (len : Nat) (hlen : 3 ≤ len)
    (haddr : addr = address ∨ addr = 0) :
    command_parser_with table address (some (addr :: cmd_code :: para_len :: params)) len =
      some (command_parser_loop cmd_code params para_len table 0).2 := by
  have hlen' : ¬ len < 3 := by omega
  have hkeep : ¬ (addr ≠ address ∧ addr ≠ 0) := by
    rcases haddr with h | h <;> simp [h]
  simp only [command_parser_with, if_neg hlen', if_neg hkeep]

/-- Over any table, `command_parser` makes at most one invocation. -/
theorem command_parser_with_at_most_one (table : List cmd_table_def) (address : Nat)
    (pframe : Option (List Nat)) (len : Nat) (calls : List Call)
    (hrun : command_parser_with table address pframe len = some calls) : calls.length ≤ 1 := by
  unfold command_parser_with at hrun
  split at hrun
  · cases hrun; simp
  · split at hrun
    · cases hrun; simp
    · split at hrun
      · cases hrun
      · split at hrun
        · cases hrun; simp
        · split at hrun
          · cases hrun
          · split at hrun
            · cases hrun
            · cases hrun
              exact command_parser_loop_at_most_one _ _ _ _ _

/-- Two tables on which every scan makes the same invocations give the same
dispatch. -/
theorem command_parser_with_congr (table table' : List cmd_table_def)
    (hscan : ∀ code pframe para_len,
      (command_parser_loop code pframe para_len table' 0).2 =
        (command_parser_loop code pframe para_len table 0).2)
    (address : Nat) (pframe : Option (List Nat)) (len : Nat) :
    command_parser_with table' address pframe len = command_parser_with table address pframe len := by
  unfold command_parser_with
  simp only [hscan]

/-- In a table whose codes are pairwise distinct, the scan for a code that an
entry carries makes the invocation of that entry, wherever the entry stands. -/
theorem command_parser_loop_of_mem (code : Nat) (pframe : List Nat) (para_len : Nat)
    (table : List cmd_table_def) (i : Nat) (entry : cmd_table_def)
    (hnodup : (table.map (fun e => e.command)).Nodup)
    (hmem : entry ∈ table) (hentry : entry.command = code) :
    (command_parser_loop code pframe para_len table i).2 =
      match entry.phandler with
      | some handler => [{ phandler := handler, ppara := pframe, len := para_len }]
      | none => [] := by
  induction table generalizing i with
  | nil => cases hmem
  | cons e rest ih =>
    rw [List.map_cons, List.nodup_cons] at hnodup
    by_cases hcode : code = e.command
    · have hsame : entry = e := by
        rcases List.mem_cons.mp hmem with h | h
        · exact h
        · exfalso
          apply hnodup.1
          rw [← hcode, ← hentry]
          exact List.mem_map_of_mem (fun e => e.command) h
      subst hsame
      rw [command_parser_loop, if_pos hcode]
      cases entry.phandler <;> rfl
    · rw [command_parser_loop, if_neg hcode]
      rcases List.mem_cons.mp hmem with h | h
      · exact absurd (h ▸ hentry).symm hcode
      · exact ih (i + 1) hnodup.2 h

/-- On a table of at most 255 entries the loop with the wrapping `uint8_t`
counter is left, and with the result of the list scan: from counter value `i`,
more turns of fuel than entries are left suffice. -/
theorem command_parser_loop_u8_eq (code : Nat) (pframe : List Nat) (para_len : Nat)
    (table : List cmd_table_def) (hsize : table.length ≤ 255) (fuel i : Nat)
    (hi : i ≤ table.length) (hfuel : table.length - i < fuel) :
    command_parser_loop_u8 code pframe para_len table fuel i =
      some (command_parser_loop code pframe para_len (table.drop i) i) := by
  induction fuel generalizing i with
  | zero => omega
  | succ fuel ih =>
    rw [command_parser_loop_u8]
    by_cases h : i < table.length
    · rw [dif_pos h, List.drop_eq_getElem_cons h, command_parser_loop]
      by_cases hcode : code = table[i].command
      · rw [if_pos hcode, if_pos hcode]
        cases table[i].phandler <;> rfl
      · have hwrap : (i + 1) % 256 = i + 1 := Nat.mod_eq_of_lt (by omega)
        rw [if_neg hcode, if_neg hcode, hwrap]
        exact ih (i + 1) (by omega) (by omega)
    · rw [dif_neg h, List.drop_eq_nil_of_le (by omega), command_parser_loop]

/-- The long example table has 257 entries. -/
theorem long_table_example_length : long_table_example.length = 257 := by
  simp only [long_table_example, List.length_append, List.length_replicate,
    List.length_singleton]

/-- The first 256 entries of the long example table have code 2 and no
handler. -/
theorem long_table_example_getElem (i : Nat) (hi : i ≤ 255)
    (h : i < long_table_example.length) : long_table_example[i] = ⟨2, none, ""⟩ := by
  simp only [long_table_example]
  rw [List.getElem_append_left (by simp only [List.length_replicate]; omega)]
  exact List.getElem_replicate _ _

/-- On the long example table the loop with the wrapping counter, looking for
code 1, is never left: the counter stays within 0..255 and every entry it meets
has code 2. -/
theorem command_parser_loop_u8_wraps (fuel i : Nat) (hi : i ≤ 255) :
    command_parser_loop_u8 1 [] 0 long_table_example fuel i = none := by
  induction fuel generalizing i with
  | zero => rw [command_parser_loop_u8]
  | succ fuel ih =>
    have hlt : i < long_table_example.length := by
      rw [long_table_example_length]
      omega
    rw [command_parser_loop_u8, dif_pos hlt, long_table_example_getElem i hi hlt,
      if_neg (by decide)]
    exact ih ((i + 1) % 256) (by omega)

/-! ## C11: the rejecting paths -/

/-- C11: on every rejecting path of `command_parser` run on the shipped table
(null frame pointer; length below 3; byte 0 neither the device address nor 0;
a code with no table entry; one of the reserved codes 0xFE and 0xFF) the call
returns normally, the memory after the call (device address, command table,
frame bytes) is the memory before it, and no handler has been invoked,
whatever the handlers would do.  The buffer is taken to hold the `len` bytes of
the frame. -/
theorem command_parser_rejects_without_effect (run_handler : Call → Memory → Memory)
    (m : Memory) (len : Nat)
    (htable : m.table = cmd_table)
    (hbuf : ∀ frame, m.frame = some frame → len ≤ frame.length)
    (hreject : m.frame = none ∨ len < 3 ∨
      (∃ frame addr, m.frame = some frame ∧ frame[0]? = some addr ∧
        addr ≠ m.address ∧ addr ≠ 0) ∨
      (∃ frame code, m.frame = some frame ∧ frame[1]? = some code ∧
        ∀ entry ∈ cmd_table, entry.command ≠ code) ∨
      (∃ frame code, m.frame = some frame ∧ frame[1]? = some code ∧
        (code = 0xFE ∨ code = 0xFF))) :
    ∃ r, command_parser_trace run_handler m len = some r ∧ r.memory = m ∧ r.calls = [] := by
  obtain ⟨address, table, frame⟩ := m
  simp only at htable hbuf hreject
  subst htable
  unfold command_parser_trace
  match frame, hbuf, hreject with
  | none, _, _ => exact ⟨_, rfl, rfl, rfl⟩
  | some buf, hbuf, hreject =>
    by_cases hlen : len < 3
    · simp only [if_pos hlen]
      exact ⟨_, rfl, rfl, rfl⟩
    · have hsize := hbuf buf rfl
      match buf, hsize, hreject with
      | [], hsize, _ => simp at hsize; omega
      | [_], hsize, _ => simp at hsize; omega
      | [_, _], hsize, _ => simp at hsize; omega
      | addr :: cmd_code :: para_len :: params, _, hreject =>
        by_cases hkeep : addr ≠ address ∧ addr ≠ 0
        · simp only [if_neg hlen, List.getElem?_cons_zero, if_pos hkeep]
          exact ⟨_, rfl, rfl, rfl⟩
        · have hcalls : (command_parser_loop cmd_code params para_len cmd_table 0).2 = [] := by
            rcases hreject with h | h | ⟨frame, a, hf, ha, hne⟩ | ⟨frame, code, hf, hc, hno⟩ |
                ⟨frame, code, hf, hc, hres⟩
            · cases h
            · exact absurd h hlen
            · cases hf
              simp only [List.getElem?_cons_zero, Option.some.injEq] at ha
              subst ha
              exact absurd hne hkeep
            · cases hf
              simp only [List.getElem?_cons_succ, List.getElem?_cons_zero,
                Option.some.injEq] at hc
              subst hc
              rw [command_parser_loop_no_match _ _ _ _ _ hno]
            · cases hf
              simp only [List.getElem?_cons_succ, List.getElem?_cons_zero,
                Option.some.injEq] at hc
              subst hc
              rw [command_parser_loop_cmd_table]
              rcases hres with h | h <;> subst h <;> rfl
          simp only [if_neg hlen, List.getElem?_cons_zero, if_neg hkeep,
            List.getElem?_cons_succ, List.drop_succ_cons, List.drop_zero, hcalls,
            List.foldl_nil]
          exact ⟨_, rfl, rfl, rfl⟩

/-- C11 at concrete inputs, with handlers that would clear the address and the
frame pointer: with address 5 on the shipped table, the null frame, the frame
`[5, 1, 2, 0x01, 0x02]` announced with length 2, the foreign frame
`[9, 1, 2, 0x01, 0x02]`, the frame `[5, 0x42, 0]` with an unknown code and the
hello frame `[5, 0xFE, 0]` all leave the memory as it was and invoke nothing. -/
theorem command_parser_rejects_without_effect_witness :
    (∃ r, command_parser_trace (fun _ mem => { mem with address := 0, frame := none })
        ⟨5, cmd_table, none⟩ 5 = some r ∧ r.memory = ⟨5, cmd_table, none⟩ ∧ r.calls = []) ∧
      (∃ r, command_parser_trace (fun _ mem => { mem with address := 0, frame := none })
        ⟨5, cmd_table, some [5, 1, 2, 0x01, 0x02]⟩ 2 = some r ∧
        r.memory = ⟨5, cmd_table, some [5, 1, 2, 0x01, 0x02]⟩ ∧ r.calls = []) ∧
      (∃ r, command_parser_trace (fun _ mem => { mem with address := 0, frame := none })
        ⟨5, cmd_table, some [9, 1, 2, 0x01, 0x02]⟩ 5 = some r ∧
        r.memory = ⟨5, cmd_table, some [9, 1, 2, 0x01, 0x02]⟩ ∧ r.calls = []) ∧
      (∃ r, command_parser_trace (fun _ mem => { mem with address := 0, frame := none })
        ⟨5, cmd_table, some [5, 0x42, 0]⟩ 3 = some r ∧
        r.memory = ⟨5, cmd_table, some [5, 0x42, 0]⟩ ∧ r.calls = []) ∧
      (∃ r, command_parser_trace (fun _ mem => { mem with address := 0, frame := none })
        ⟨5, cmd_table, some [5, 0xFE, 0]⟩ 3 = some r ∧
        r.memory = ⟨5, cmd_table, some [5, 0xFE, 0]⟩ ∧ r.calls = []) :=
  ⟨command_parser_rejects_without_effect _ ⟨5, cmd_table, none⟩ 5 rfl
      (by intro frame h; cases h) (Or.inl rfl),
    command_parser_rejects_without_effect _ ⟨5, cmd_table, some [5, 1, 2, 0x01, 0x02]⟩ 2 rfl
      (by intro frame h; cases h; decide) (Or.inr (Or.inl (by decide))),
    command_parser_rejects_without_effect _ ⟨5, cmd_table, some [9, 1, 2, 0x01, 0x02]⟩ 5 rfl
      (by intro frame h; cases h; decide)
      (Or.inr (Or.inr (Or.inl ⟨_, 9, rfl, rfl, by decide, by decide⟩))),
    command_parser_rejects_without_effect _ ⟨5, cmd_table, some [5, 0x42, 0]⟩ 3 rfl
      (by intro frame h; cases h; decide)
      (Or.inr (Or.inr (Or.inr (Or.inl ⟨_, 0x42, rfl, rfl, by decide⟩)))),
    command_parser_rejects_without_effect _ ⟨5, cmd_table, some [5, 0xFE, 0]⟩ 3 rfl
      (by intro frame h; cases h; decide)
      (Or.inr (Or.inr (Or.inr (Or.inr ⟨_, 0xFE, rfl, rfl, Or.inl rfl⟩))))⟩

/-! ## C12: the declared parameter count is not checked -/

/-- C12: for every accepted frame with a handled code, announced with any
length `len` of at least 3, the handler is invoked with byte 2 as its length
argument; the outcome is the same for every other announced length of at least
3, so `len` is not compared with byte 2.  In particular the frame
`[a, 1, 200]` of length 3, `a` being the device address, has `command_set_blink`
invoked with length 200 while no parameter byte is present. -/
theorem command_parser_trusts_para_len {D : Type} (s : State D) (frame : List Nat)
    (len : Nat) (entry : cmd_table_def) (handler : Handler) (para_len : Nat)
    (hlen : 3 ≤ len)
    (haddr : frame[0]? = some s.address ∨ frame[0]? = some 0)
    (hentry : entry ∈ cmd_table)
    (hcode : frame[1]? = some entry.command)
    (hhandler : entry.phandler = some handler)
    (hpara : frame[2]? = some para_len) :
    command_parser_run s (some frame) len =
        some [{ phandler := handler, ppara := frame.drop 3, len := para_len }] ∧
      (∀ len', 3 ≤ len' →
        command_parser_run s (some frame) len' = command_parser_run s (some frame) len) ∧
      ∃ call, command_parser_run s (some [s.address, 1, 200]) 3 = some [call] ∧
        call.phandler = .command_set_blink ∧
        [s.address, 1, 200].length - 3 < call.len ∧ call.ppara.length < call.len := by
  have hrun := command_parser_handled s frame len entry handler para_len hlen haddr hentry hcode
    hhandler hpara
  refine ⟨hrun, ?_, ?_⟩
  · intro len' hlen'
    rw [hrun]
    exact command_parser_handled s frame len' entry handler para_len hlen' haddr hentry hcode
      hhandler hpara
  · refine ⟨{ phandler := .command_set_blink, ppara := [], len := 200 }, ?_, rfl, ?_, ?_⟩
    · exact command_parser_handled s [s.address, 1, 200] 3 ⟨CMD_SETBLINK, some .command_set_blink, ""⟩
        .command_set_blink 200 (Nat.le_refl 3) (Or.inl rfl) (by decide) rfl rfl rfl
    · simp
    · simp

/-- C12 at a concrete input: with address 5 the frame `[5, 1, 200]` of length
3 has `command_set_blink` invoked with length 200 on an empty parameter
area. -/
theorem command_parser_trusts_para_len_witness :
    command_parser_run (⟨5, (), fifo_init 128⟩ : State Unit) (some [5, 1, 200]) 3 =
      some [{ phandler := .command_set_blink, ppara := [], len := 200 }] :=
  (command_parser_trusts_para_len ⟨5, (), fifo_init 128⟩ [5, 1, 200] 3
    ⟨CMD_SETBLINK, some .command_set_blink, ""⟩ .command_set_blink 200
    (by decide) (Or.inl rfl) (by decide) rfl rfl rfl).1

/-! ## C13: the parameter view of an exact-length frame -/

/-- C13: when the frame has exactly `3 + byte 2` bytes, the view handed to the
handler of an accepted frame with a handled code (the first `len` bytes from
the pointer, `len` being byte 2) is the whole remainder of the frame after the
3-byte header: it has byte 2 many bytes, its byte `k` is byte `3 + k` of the
frame, an index inside the frame, and it is empty when byte 2 is 0. -/
theorem command_parser_view_in_frame {D : Type} (s : State D) (frame : List Nat)
    (len : Nat) (entry : cmd_table_def) (handler : Handler) (para_len : Nat)
    (hsize : len = frame.length)
    (hexact : len = 3 + para_len)
    (haddr : frame[0]? = some s.address ∨ frame[0]? = some 0)
    (hentry : entry ∈ cmd_table)
    (hcode : frame[1]? = some entry.command)
    (hhandler : entry.phandler = some handler)
    (hpara : frame[2]? = some para_len) :
    ∃ call, command_parser_run s (some frame) len = some [call] ∧
      call.phandler = handler ∧ call.len = para_len ∧
      call.ppara.take call.len = frame.drop 3 ∧
      (call.ppara.take call.len).length = para_len ∧
      (∀ k, k < call.len → 3 + k < frame.length ∧
        (call.ppara.take call.len)[k]? = frame[3 + k]?) ∧
      (para_len = 0 → call.ppara.take call.len = []) := by
  have hrun := command_parser_handled s frame len entry handler para_len (by omega) haddr hentry
    hcode hhandler hpara
  have hrest : (frame.drop 3).length = para_len := by
    rw [List.length_drop]
    omega
  have hview : (frame.drop 3).take para_len = frame.drop 3 :=
    List.take_of_length_le (by omega)
  refine ⟨_, hrun, rfl, rfl, hview, ?_, ?_, ?_⟩
  · simp only [hview, hrest]
  · intro k hk
    simp only at hk
    refine ⟨by omega, ?_⟩
    simp only [hview, List.getElem?_drop]
  · intro hzero
    simp only [hview]
    exact List.eq_nil_of_length_eq_zero (by omega)

/-- C13 at concrete inputs: with address 5 the 5-byte frame
`[5, 1, 2, 0x01, 0x02]` gives the view `[0x01, 0x02]`, and the 3-byte broadcast
frame `[0, 7, 0]` gives the empty view. -/
theorem command_parser_view_in_frame_witness :
    (∃ call, command_parser_run (⟨5, (), fifo_init 128⟩ : State Unit)
        (some [5, 1, 2, 0x01, 0x02]) 5 = some [call] ∧
        call.phandler = .command_set_blink ∧ call.len = 2 ∧
        call.ppara.take call.len = [0x01, 0x02]) ∧
      (∃ call, command_parser_run (⟨5, (), fifo_init 128⟩ : State Unit)
        (some [0, 7, 0]) 3 = some [call] ∧
        call.phandler = .command_save_settings ∧ call.len = 0 ∧
        call.ppara.take call.len = []) :=
  ⟨(command_parser_view_in_frame ⟨5, (), fifo_init 128⟩ [5, 1, 2, 0x01, 0x02] 5
      ⟨CMD_SETBLINK, some .command_set_blink, ""⟩ .command_set_blink 2
      rfl rfl (Or.inl rfl) (by decide) rfl rfl rfl).imp
      (fun _ h => ⟨h.1, h.2.1, h.2.2.1, h.2.2.2.1⟩),
    (command_parser_view_in_frame ⟨5, (), fifo_init 128⟩ [0, 7, 0] 3
      ⟨CMD_SAVE_SETTING, some .command_save_settings, ""⟩ .command_save_settings 0
      rfl rfl (Or.inr rfl) (by decide) rfl rfl rfl).imp
      (fun _ h => ⟨h.1, h.2.1, h.2.2.1, h.2.2.2.1⟩)⟩

/-! ## C14: first match wins -/

/-- C14, as stated for an arbitrary table, fails on a table of more than 255
entries.  In `long_table_example` (256 handler-less entries with code 2
followed by an entry with code 1 and handler `command_set_blink`) the first
entry with code 1 stands at index 256 and no earlier entry has code 1, but the
loop of
`command_parser`, whose counter is a `uint8_t` and wraps from 255 to 0, never
reaches it: whatever number of turns it is given, it has not been left, so the
entry is not acted on. -/
theorem command_parser_first_match_long_table_counterexample :
    long_table_example[256]? = some ⟨1, some .command_set_blink, ""⟩ ∧
      (long_table_example.take 256).all (fun e => decide (e.command ≠ 1)) = true ∧
      ¬ ∃ fuel, command_parser_loop_u8 1 [] 0 long_table_example fuel 0 ≠ none := by
  refine ⟨?_, ?_, ?_⟩
  · simp only [long_table_example]
    rw [List.getElem?_append_right (by simp only [List.length_replicate]; exact Nat.le_refl _)]
    simp only [List.length_replicate, Nat.sub_self, List.getElem?_cons_zero]
  · rw [List.all_eq_true]
    intro e he
    have hmem : e ∈ List.replicate 256 (⟨2, none, ""⟩ : cmd_table_def) := by
      have htake : long_table_example.take 256 = List.replicate 256 ⟨2, none, ""⟩ := by
        simp only [long_table_example]
        rw [List.take_append_of_le_length (by simp only [List.length_replicate]; exact Nat.le_refl _)]
        exact List.take_of_length_le (by simp only [List.length_replicate]; exact Nat.le_refl _)
      rwa [htake] at he
    rw [List.eq_of_mem_replicate hmem]
    decide
  · rintro ⟨fuel, hleft⟩
    exact hleft (command_parser_loop_u8_wraps fuel 0 (by omega))

/-- C14, amended: over an arbitrary table of at most 255 entries (the range of the
`uint8_t` loop counter), duplicates allowed, an accepted frame is served by the
first entry, in table order, whose code is byte 1: the loop is left at the
index of that entry, the invocation is the one of that entry whatever entries
follow it, nothing is invoked when that entry has no handler (even if a later
entry with the same code has one), no call of `command_parser` makes more than
one invocation, and the loop with the wrapping `uint8_t` counter is left with
this very result. -/
theorem command_parser_first_match_wins (address : Nat) (pre : List cmd_table_def)
    (entry : cmd_table_def) (post : List cmd_table_def) (addr code para_len : Nat)
    (params : List Nat) (len : Nat)
    (hsize : (pre ++ entry :: post).length ≤ 255)
    (hlen : 3 ≤ len) (haddr : addr = address ∨ addr = 0)
    (hpre : ∀ e ∈ pre, e.command ≠ code) (hentry : entry.command = code) :
    command_parser_with (pre ++ entry :: post) address
        (some (addr :: code :: para_len :: params)) len =
        some (match entry.phandler with
          | some handler => [{ phandler := handler, ppara := params, len := para_len }]
          | none => []) ∧
      (command_parser_loop code params para_len (pre ++ entry :: post) 0).1 = pre.length ∧
      (entry.phandler = none →
        command_parser_with (pre ++ entry :: post) address
          (some (addr :: code :: para_len :: params)) len = some []) ∧
      (∀ (table : List cmd_table_def) (pframe : Option (List Nat)) (len' : Nat)
          (calls : List Call), table.length ≤ 255 →
        command_parser_with table address pframe len' = some calls → calls.length ≤ 1) ∧
      (∀ fuel, (pre ++ entry :: post).length < fuel →
        command_parser_loop_u8 code params para_len (pre ++ entry :: post) fuel 0 =
          some (pre.length,
            match entry.phandler with
            | some handler => [{ phandler := handler, ppara := params, len := para_len }]
            | none => [])) := by
  have hscan := command_parser_loop_first_match code params para_len pre entry post 0 hpre hentry
  have hrun := command_parser_with_accepted (pre ++ entry :: post) address addr code para_len
    params len hlen haddr
  refine ⟨?_, ?_, ?_, ?_, ?_⟩
  · rw [hrun, hscan]
  · rw [hscan]
    simp
  · intro hnone
    rw [hrun, hscan, hnone]
  · intro table pframe len' calls _ hcalls
    exact command_parser_with_at_most_one table address pframe len' calls hcalls
  · intro fuel hfuel
    rw [command_parser_loop_u8_eq code params para_len (pre ++ entry :: post) hsize fuel 0
        (Nat.zero_le _) (by omega), List.drop_zero, hscan, Nat.zero_add]

/-- C14 on tables with a duplicated code, address 5, frame `[5, 1, 0]`: when
the first entry for code 1 has no handler and the second has
`command_set_blink`, nothing is invoked; when an entry for code 2 comes first,
then code 1 with `command_set_blink`, then code 1 with `command_print`, only
`command_set_blink` is invoked and the loop, also the one with the wrapping
counter run for 4 turns at most, is left at index 1. -/
theorem command_parser_first_match_wins_witness :
    command_parser_with [⟨1, none, ""⟩, ⟨1, some .command_set_blink, ""⟩] 5
        (some [5, 1, 0]) 3 = some [] ∧
      command_parser_with
        [⟨2, some .command_print, ""⟩, ⟨1, some .command_set_blink, ""⟩,
          ⟨1, some .command_print, ""⟩] 5 (some [5, 1, 0]) 3 =
        some [{ phandler := .command_set_blink, ppara := [], len := 0 }] ∧
      (command_parser_loop 1 [] 0
        [⟨2, some .command_print, ""⟩, ⟨1, some .command_set_blink, ""⟩,
          ⟨1, some .command_print, ""⟩] 0).1 = 1 ∧
      command_parser_loop_u8 1 [] 0
        [⟨2, some .command_print, ""⟩, ⟨1, some .command_set_blink, ""⟩,
          ⟨1, some .command_print, ""⟩] 4 0 =
        some (1, [{ phandler := .command_set_blink, ppara := [], len := 0 }]) :=
  ⟨(command_parser_first_match_wins 5 [] ⟨1, none, ""⟩ [⟨1, some .command_set_blink, ""⟩]
      5 1 0 [] 3 (by decide) (by decide) (Or.inl rfl) (by decide) rfl).1,
    (command_parser_first_match_wins 5 [⟨2, some .command_print, ""⟩]
      ⟨1, some .command_set_blink, ""⟩ [⟨1, some .command_print, ""⟩]
      5 1 0 [] 3 (by decide) (by decide) (Or.inl rfl) (by decide) rfl).1,
    (command_parser_first_match_wins 5 [⟨2, some .command_print, ""⟩]
      ⟨1, some .command_set_blink, ""⟩ [⟨1, some .command_print, ""⟩]
      5 1 0 [] 3 (by decide) (by decide) (Or.inl rfl) (by decide) rfl).2.1,
    (command_parser_first_match_wins 5 [⟨2, some .command_print, ""⟩]
      ⟨1, some .command_set_blink, ""⟩ [⟨1, some .command_print, ""⟩]
      5 1 0 [] 3 (by decide) (by decide) (Or.inl rfl) (by decide) rfl).2.2.2.2 4 (by decide)⟩

/-! ## C15: the codes of the shipped table are distinct -/

/-- C15: the codes of `cmd_table` are, in table order, 0xFE, 0xFF, 1, 2, 6, 3,
4, 10, 5, 7, 8, 9, 0xA0, thirteen pairwise distinct values; two entries of the
table with the same code are the same entry; and `command_parser` run over any
reordering of the table makes the same invocations as over the table itself,
for every address, frame and length. -/
theorem cmd_table_codes_distinct :
    cmd_table.map (fun e => e.command) = [0xFE, 0xFF, 1, 2, 6, 3, 4, 10, 5, 7, 8, 9, 0xA0] ∧
      (cmd_table.map (fun e => e.command)).length = 13 ∧
      (cmd_table.map (fun e => e.command)).Nodup ∧
      (∀ e1 ∈ cmd_table, ∀ e2 ∈ cmd_table, e1.command = e2.command → e1 = e2) ∧
      (∀ table : List cmd_table_def, table.Perm cmd_table →
        ∀ (address : Nat) (pframe : Option (List Nat)) (len : Nat),
          command_parser_with table address pframe len =
            command_parser_with cmd_table address pframe len) := by
  have hnodup : (cmd_table.map (fun e => e.command)).Nodup := by decide
  refine ⟨rfl, rfl, hnodup, by decide, ?_⟩
  intro table hperm
  have hnodup' : (table.map (fun e => e.command)).Nodup :=
    ((hperm.map (fun e => e.command)).nodup_iff).mpr hnodup
  apply command_parser_with_congr
  intro code pframe para_len
  by_cases hfound : ∃ entry ∈ cmd_table, entry.command = code
  · obtain ⟨entry, hmem, hentry⟩ := hfound
    rw [command_parser_loop_of_mem code pframe para_len table 0 entry hnodup'
        (hperm.mem_iff.mpr hmem) hentry,
      command_parser_loop_of_mem code pframe para_len cmd_table 0 entry hnodup hmem hentry]
  · have hnone : ∀ entry ∈ cmd_table, entry.command ≠ code :=
      fun entry hmem hentry => hfound ⟨entry, hmem, hentry⟩
    have hnone' : ∀ entry ∈ table, entry.command ≠ code :=
      fun entry hmem => hnone entry (hperm.mem_iff.mp hmem)
    rw [command_parser_loop_no_match _ _ _ _ _ hnone, command_parser_loop_no_match _ _ _ _ _ hnone']

/-! ## C16: the reads of `command_parser` -/

/-- C16: the reads of `command_parser` on a non-null frame, told by where the
bounds-tested dispatcher returns the out-of-range result.  A buffer that holds
at least `len` bytes is never read out of range.  With `len` below 3 no byte is
read: every buffer, the empty one included, gives a normal return.  With `len`
at least 3 index 0 is read: the empty buffer is out of range.  For a foreign
address only index 0 is read: a buffer of one byte gives a normal return.
Otherwise indices 1 and 2 are read as well (buffers of one and of two bytes are
out of range) and no index beyond 2 is: a buffer of exactly three bytes is
never out of range, and the bytes from index 3 on change neither the handler
invoked nor its length argument. -/
theorem command_parser_reads_in_bounds {D : Type} (s : State D) (len : Nat) :
    (∀ frame : List Nat, len ≤ frame.length → command_parser_run s (some frame) len ≠ none) ∧
      (len < 3 → ∀ frame : List Nat, command_parser_run s (some frame) len = some []) ∧
      (3 ≤ len → command_parser_run s (some []) len = none) ∧
      (3 ≤ len → ∀ addr, addr ≠ s.address → addr ≠ 0 →
        ∀ rest : List Nat, command_parser_run s (some (addr :: rest)) len = some []) ∧
      (3 ≤ len → ∀ addr, addr = s.address ∨ addr = 0 →
        command_parser_run s (some [addr]) len = none ∧
          ∀ code, command_parser_run s (some [addr, code]) len = none) ∧
      (3 ≤ len → ∀ addr code para_len : Nat,
        command_parser_run s (some [addr, code, para_len]) len ≠ none ∧
          ∀ params : List Nat,
            (command_parser_run s (some (addr :: code :: para_len :: params)) len).map
                (List.map (fun call => (call.phandler, call.len))) =
              (command_parser_run s (some [addr, code, para_len]) len).map
                (List.map (fun call => (call.phandler, call.len)))) := by
  refine ⟨?_, ?_, ?_, ?_, ?_, ?_⟩
  · intro frame hbuf
    by_cases hlen : len < 3
    · simp [command_parser_run, command_parser_with, hlen]
    · match frame, hbuf with
      | [], hbuf => simp at hbuf; omega
      | [_], hbuf => simp at hbuf; omega
      | [_, _], hbuf => simp at hbuf; omega
      | addr :: cmd_code :: para_len :: params, _ =>
        by_cases hkeep : addr ≠ s.address ∧ addr ≠ 0 <;>
          simp [command_parser_run, command_parser_with, hlen, hkeep]
  · intro hlen frame
    simp [command_parser_run, command_parser_with, hlen]
  · intro hlen
    have hlen' : ¬ len < 3 := by omega
    simp [command_parser_run, command_parser_with, hlen']
  · intro hlen addr hother hbroadcast rest
    have hlen' : ¬ len < 3 := by omega
    simp [command_parser_run, command_parser_with, hlen', hother, hbroadcast]
  · intro hlen addr haddr
    have hlen' : ¬ len < 3 := by omega
    have hkeep : ¬ (addr ≠ s.address ∧ addr ≠ 0) := by
      rcases haddr with h | h <;> simp [h]
    constructor
    · simp only [command_parser_run, command_parser_with, if_neg hlen', if_neg hkeep]
    · intro code
      simp only [command_parser_run, command_parser_with, if_neg hlen', if_neg hkeep]
  · intro hlen addr code para_len
    have hlen' : ¬ len < 3 := by omega
    by_cases hkeep : addr ≠ s.address ∧ addr ≠ 0
    · constructor
      · simp [command_parser_run, command_parser_with, hlen', hkeep]
      · intro params
        simp [command_parser_run, command_parser_with, hlen', hkeep]
    · have haddr : addr = s.address ∨ addr = 0 := by
        by_cases h : addr = s.address
        · exact Or.inl h
        · exact Or.inr (by simpa [h] using hkeep)
      constructor
      · rw [command_parser_accepted s _ _ _ _ len hlen haddr]
        simp
      · intro params
        rw [command_parser_accepted s _ _ _ _ len hlen haddr,
          command_parser_accepted s _ _ _ _ len hlen haddr,
          command_parser_loop_spec, command_parser_loop_spec]
        cases spec_command_handler code <;> rfl

/-- C16 at concrete inputs, address 5.  The frame `[5, 1, 0]` of length exactly
3 is read in range.  With length 2 even the empty buffer is left alone.  With
length 3 the empty buffer is out of range, the one-byte buffer `[9]` of a
foreign frame is not, the buffers `[5]` and `[5, 1]` are, and the three-byte
buffer `[5, 1, 200]` is not, even when announced with length 100. -/
theorem command_parser_reads_in_bounds_witness :
    command_parser_run (⟨5, (), fifo_init 128⟩ : State Unit) (some [5, 1, 0]) 3 ≠ none ∧
      command_parser_run (⟨5, (), fifo_init 128⟩ : State Unit) (some []) 2 = some [] ∧
      command_parser_run (⟨5, (), fifo_init 128⟩ : State Unit) (some []) 3 = none ∧
      command_parser_run (⟨5, (), fifo_init 128⟩ : State Unit) (some [9]) 3 = some [] ∧
      command_parser_run (⟨5, (), fifo_init 128⟩ : State Unit) (some [5]) 3 = none ∧
      command_parser_run (⟨5, (), fifo_init 128⟩ : State Unit) (some [5, 1]) 3 = none ∧
      command_parser_run (⟨5, (), fifo_init 128⟩ : State Unit) (some [5, 1, 200]) 100 ≠ none :=
  ⟨(command_parser_reads_in_bounds ⟨5, (), fifo_init 128⟩ 3).1 [5, 1, 0] (by decide),
    (command_parser_reads_in_bounds ⟨5, (), fifo_init 128⟩ 2).2.1 (by decide) [],
    (command_parser_reads_in_bounds ⟨5, (), fifo_init 128⟩ 3).2.2.1 (by decide),
    (command_parser_reads_in_bounds ⟨5, (), fifo_init 128⟩ 3).2.2.2.1 (by decide) 9
      (by decide) (by decide) [],
    ((command_parser_reads_in_bounds ⟨5, (), fifo_init 128⟩ 3).2.2.2.2.1 (by decide) 5
      (Or.inl rfl)).1,
    ((command_parser_reads_in_bounds ⟨5, (), fifo_init 128⟩ 3).2.2.2.2.1 (by decide) 5
      (Or.inl rfl)).2 1,
    ((command_parser_reads_in_bounds ⟨5, (), fifo_init 128⟩ 100).2.2.2.2.2 (by decide) 5 1 200).1⟩

end Commands
